import Mathlib

/-!
Verification development for the trip-planner repository.

The repository consists of a React client (src/client and the unnamed
client files) and a FastAPI/LangGraph server described by the server
README. The client files embedded here are:

  * the streaming client (unnamed part_004): its sendMessage function
    posts to /stream, frames the response into data: lines, and
    dispatches parsed stream events onto the message list;
  * the non-streaming client (src/client/src/App.tsx): its fetchPlan
    function posts to /plan and post-processes the JSON response.

Pure fragments of those functions are translated into executable Lean
definitions below; the stateful setMessages updates become explicit
functions on the message list.
-/

namespace TripPlanner

/-! ## Agent-side data model (server, modelled from the spec)

The Intent Router lives in server/agent.py, which is not included in
the sources; only the server README is. The definitions in this
section are therefore modelled from the spec alone. -/

/-- A message accumulated in the loop-scoped AgentState: user,
assistant-partial, or tool-result (carrying the tool name). -/
inductive AgentMsg where
  | userMsg (text : String)
  | assistantMsg (text : String)
  | toolResultMsg (tool : String)
deriving DecidableEq, Repr

/-- Modelled from the spec: the loop-scoped AgentState (section 3) as the
Router sees it — the ordered message list and the raw user message text.
The server implementation (agent.py) is not under src. -/
structure AgentState where
  messages : List AgentMsg
  userMessage : String
deriving DecidableEq, Repr

/-- Names of the tool-result messages accumulated so far, in order. -/
def toolResultNames (st : AgentState) : List String :=
  st.messages.filterMap (fun m =>
    match m with
    | .toolResultMsg t => some t
    | _ => none)

/-- Number of tool-result messages accumulated in the AgentState. -/
def toolResultCount (st : AgentState) : Nat :=
  (toolResultNames st).length

/-- The two model bindings: planning mode (tools declared) and free
mode (no tools). -/
inductive Binding where
  | plan
  | free
deriving DecidableEq, Repr

/-- Output of one Router evaluation: next binding and whether the turn
continues. (The spec calls the second field continue, which is a
reserved word here.) -/
structure RouterDecision where
  binding : Binding
  cont : Bool
deriving DecidableEq, Repr

/-- Modelled from the spec: the Intent Router decision table of section
4.3. The implementation (server/agent.py) is not under src. Rows 1-5
are evaluated in order, first match wins; the safety cap (5 or more
tool-result messages) is evaluated last and overrides all other rows,
as the spec states. The feasibility-phrasing lexicon is configuration
(section 9), so it is a parameter here. -/
def routerDecision (feas : String → Bool) (st : AgentState) : RouterDecision :=
  let names := toolResultNames st
  let base : RouterDecision :=
    if names.contains "build_itinerary" then ⟨.free, false⟩
    else if !names.isEmpty && names.all (fun n => n == "get_destinations") then ⟨.free, false⟩
    else if 2 ≤ names.count "get_destinations" && !names.contains "get_budget_estimate" then
      ⟨.free, false⟩
    else if names.contains "get_budget_estimate" && feas st.userMessage then ⟨.free, false⟩
    else if names.contains "get_budget_estimate" && !feas st.userMessage then ⟨.plan, true⟩
    else ⟨.plan, true⟩
  if 5 ≤ toolResultCount st then ⟨.free, false⟩ else base

/-- The orchestration loop starts another tool cycle exactly when the
Router decision says to continue. -/
def startsAnotherToolCycle (feas : String → Bool) (st : AgentState) : Bool :=
  (routerDecision feas st).cont

/-! ## Client data model (src/client/src/types.ts) -/

/-- One entry of the reasoning panel (types.ts, ReasoningStep). The TS
input is a Record of unknowns and the output an unknown; both are
opaque payloads here. -/
structure ReasoningStep where
  tool : String
  input : String
  output : String
deriving DecidableEq, Repr

/-- Message role, the TS union of the two role literals. -/
inductive Role where
  | user
  | assistant
deriving DecidableEq, Repr

/-- A conversation message (types.ts, Message). Optional TS fields
become Options; absent boolean fields are falsy, hence default false. -/
structure Message where
  role : Role
  content : String
  reasoning_steps : Option (List ReasoningStep) := none
  thinking : Option String := none
  follow_up_suggestions : Option (List String) := none
  activeTool : Option String := none
  loading : Bool := false
  isError : Bool := false
  rateLimitReset : Option String := none
deriving DecidableEq, Repr

/-- The placeholder assistant message pushed at turn start by the
streaming client (part_004, sendMessage): empty content, loading true,
empty reasoning-step list. -/
def initialAssistantMessage : Message :=
  { role := .assistant, content := "", loading := true, reasoning_steps := some [] }

/-! ## Streaming events and the client dispatcher (part_004, sendMessage) -/

/-- A parsed stream event, as dispatched on evt.type by the streaming
client. The other constructor stands for a JSON event whose type string
matches none of the dispatched branches. -/
inductive StreamEvent where
  | token (text : String)
  | thinking (text : String)
  | tool_start (tool : String)
  | tool_end (tool : String) (input : String) (output : String)
  | done (clean_response : String) (follow_up_suggestions : Option (List String))
  | error (message : String)
  | other (ty : String)
deriving DecidableEq, Repr

/-- The wire type string of an event. -/
def eventType : StreamEvent → String
  | .token _ => "token"
  | .thinking _ => "thinking"
  | .tool_start _ => "tool_start"
  | .tool_end _ _ _ => "tool_end"
  | .done _ _ => "done"
  | .error _ => "error"
  | .other ty => ty

/-- The event types for which the dispatcher has a branch. -/
def handledTypes : List String :=
  ["token", "thinking", "tool_start", "tool_end", "done", "error"]

/-- Whether the event is the error variant (which the dispatcher
throws on). -/
def isErrorEvt : StreamEvent → Bool
  | .error _ => true
  | _ => false

/-- Whether the event is the done variant. -/
def isDoneEvt : StreamEvent → Bool
  | .done _ _ => true
  | _ => false

/-- The setMessages pattern used by every dispatcher branch:
prev.slice(0,-1) concatenated with the rewritten last element. On the
empty list (unreachable in the client, which always pushes two messages
first) it returns the empty list. -/
def updateLast (f : Message → Message) (st : List Message) : List Message :=
  match st.getLast? with
  | none => []
  | some last => st.dropLast ++ [f last]

/-- The per-message effect of one dispatched event, field for field as
in part_004 lines 209-249: token appends text and clears loading;
thinking stores the text; tool_start sets the active tool; tool_end
clears it and appends a reasoning step; done overwrites the content and
sets the follow-up suggestions (defaulting to the empty list); error
and unknown types leave the message unchanged. -/
def msgStep : StreamEvent → Message → Message
  | .token text, last => { last with loading := false, content := last.content ++ text }
  | .thinking text, last => { last with thinking := some text }
  | .tool_start tool, last => { last with activeTool := some tool }
  | .tool_end tool input output, last =>
      { last with activeTool := none,
                  reasoning_steps := some (last.reasoning_steps.getD [] ++ [⟨tool, input, output⟩]) }
  | .done clean_response follow_up_suggestions, last =>
      { last with content := clean_response,
                  follow_up_suggestions := some (follow_up_suggestions.getD []) }
  | .error _, last => last
  | .other _, last => last

/-- Dispatch of one parsed event (part_004, the if/else-if chain on
evt.type). The error branch throws, modelled as Except.error; a type
with no branch falls through with no effect. -/
def processEvent (e : StreamEvent) (st : List Message) : Except String (List Message) :=
  match e with
  | .token text =>
      .ok (updateLast (fun last => { last with loading := false, content := last.content ++ text }) st)
  | .thinking text =>
      .ok (updateLast (fun last => { last with thinking := some text }) st)
  | .tool_start tool =>
      .ok (updateLast (fun last => { last with activeTool := some tool }) st)
  | .tool_end tool input output =>
      .ok (updateLast (fun last =>
        { last with activeTool := none,
                    reasoning_steps := some (last.reasoning_steps.getD [] ++ [⟨tool, input, output⟩]) }) st)
  | .done clean_response follow_up_suggestions =>
      .ok (updateLast (fun last =>
        { last with content := clean_response,
                    follow_up_suggestions := some (follow_up_suggestions.getD []) }) st)
  | .error message => .error message
  | .other _ => .ok st

/-- Sequential dispatch of a list of events. A thrown error aborts the
rest of the stream and carries the message list as it stood when the
throw happened (the state the catch handler sees). -/
def processEvents : List StreamEvent → List Message → Except (String × List Message) (List Message)
  | [], st => .ok st
  | e :: es, st =>
      match processEvent e st with
      | .ok st1 => processEvents es st1
      | .error message => .error (message, st)

/-- Error taxonomy of the catch handler: the RateLimitError subclass
thrown on 429, and every other Error with its message. -/
inductive FetchError where
  | rateLimit (message : String) (resetsAt : String)
  | generic (message : String)
deriving DecidableEq, Repr

/-- The catch handler of sendMessage (part_004 lines 252-260): replace
the last (in-progress) message with an error-flagged assistant message;
a rate-limit error additionally carries the reset time. -/
def handleTurnError (e : FetchError) (prev : List Message) : List Message :=
  match e with
  | .rateLimit message resetsAt =>
      prev.dropLast ++ [{ role := .assistant, content := message, isError := true,
                          rateLimitReset := some resetsAt }]
  | .generic message =>
      prev.dropLast ++ [{ role := .assistant, content := message, isError := true }]

/-- A whole streamed turn after a successful fetch: dispatch the events
in order; if one of them throws, the catch handler rewrites the message
list as it stood at the throw. -/
def runStreamTurn (evs : List StreamEvent) (st : List Message) : List Message :=
  match processEvents evs st with
  | .ok st1 => st1
  | .error (message, stAt) => handleTurnError (.generic message) stAt

/-! ## Observations on the message list -/

/-- Content of the last message, empty if the list is empty. -/
def contentOfLast (st : List Message) : String :=
  ((st.getLast?).map (fun m => m.content)).getD ""

/-- Follow-up suggestions field of the last message. -/
def followUpsOfLast (st : List Message) : Option (List String) :=
  ((st.getLast?).map (fun m => m.follow_up_suggestions)).getD none

/-- Reasoning steps of the last message, with the TS default of the
empty list for an absent field. -/
def stepsOfLast (st : List Message) : List ReasoningStep :=
  ((st.getLast?).map (fun m => m.reasoning_steps.getD [])).getD []

/-- Active-tool marker of the last message. -/
def activeToolOfLast (st : List Message) : Option String :=
  (st.getLast?).bind (fun m => m.activeTool)

/-- Texts of the token events of a stream, in order. -/
def tokenTexts (evs : List StreamEvent) : List String :=
  evs.filterMap (fun e =>
    match e with
    | .token t => some t
    | _ => none)

/-- Reasoning steps built from the tool_end events of a stream, in
order. -/
def toolEndSteps (evs : List StreamEvent) : List ReasoningStep :=
  evs.filterMap (fun e =>
    match e with
    | .tool_end t i o => some ⟨t, i, o⟩
    | _ => none)

/-! ## The HTTP response check before streaming (part_004 lines 183-189) -/

/-- The detail field of a parsed error body: either an object with
message and resets_at, or a plain string. -/
inductive DetailVal where
  | obj (message : String) (resets_at : String)
  | str (s : String)
deriving DecidableEq, Repr

/-- The response facts the client inspects: status, presence of a
body, and the detail of the parsed JSON body (none both when the field
is absent and when parsing failed, which the client turns into an empty
object). -/
structure HttpResponse where
  status : Nat
  hasBody : Bool
  detail : Option DetailVal
deriving DecidableEq, Repr

/-- res.ok: status in the 200-299 range. -/
def resOk (r : HttpResponse) : Bool :=
  200 ≤ r.status && r.status < 300

/-- The pre-stream response check: on not-ok or missing body, throw a
RateLimitError when the status is 429 and detail is an object,
otherwise a generic Error whose message is the string detail, the
stringified object, or the fallback text. Returns none when the
response is ok and has a body (streaming proceeds). -/
def checkResponse (r : HttpResponse) : Option FetchError :=
  if !resOk r || !r.hasBody then
    some (if r.status = 429 then
            match r.detail with
            | some (.obj message resets_at) => .rateLimit message resets_at
            | some (.str s) => .generic s
            | none => .generic "Something went wrong"
          else
            match r.detail with
            | some (.obj _ _) => .generic "[object Object]"
            | some (.str s) => .generic s
            | none => .generic "Something went wrong")
  else none

/-- Cumulative effect of a list of dispatched events on one message
(the last message of the list, which every branch rewrites). -/
def applyEvents (evs : List StreamEvent) (m : Message) : Message :=
  evs.foldl (fun acc e => msgStep e acc) m

/-- Concatenation of a list of strings in order. -/
def concatStrings : List String → String
  | [] => ""
  | s :: rest => s ++ concatStrings rest

/-! ## Non-streaming client: fetchPlan (src/client/src/App.tsx) -/

/-- The request body fetchPlan posts to the plan endpoint: the user
message, the session id and the (role, content) history pairs. -/
structure PlanRequestBody where
  message : String
  session_id : String
  history : List (String × String)
deriving DecidableEq, Repr

/-- Builds the plan-endpoint request body (App.tsx, fetchPlan line 125). -/
def planRequestBody (message session_id : String)
    (history : List (String × String)) : PlanRequestBody :=
  ⟨message, session_id, history⟩

/-- The request body the streaming client posts to the stream endpoint
(part_004 line 180): message and session id only. -/
structure StreamRequestBody where
  message : String
  session_id : String
deriving DecidableEq, Repr

/-- Builds the stream-endpoint request body. -/
def streamRequestBody (message session_id : String) : StreamRequestBody :=
  ⟨message, session_id⟩

/-- Case-insensitive test that the tag (given in lowercase characters)
starts the list, mirroring the i flag of the fetchPlan regexes. -/
def tagAt : List Char → List Char → Bool
  | [], _ => true
  | _ :: _, [] => false
  | t :: ts, c :: cs => (c.toLower == t) && tagAt ts cs

/-- First case-insensitive occurrence of the tag in the list: the
characters before it and the characters after it, or none when the tag
does not occur. -/
def splitAtTag (tag : List Char) : List Char → Option (List Char × List Char)
  | [] => none
  | c :: cs =>
      if tagAt tag (c :: cs) then some ([], (c :: cs).drop tag.length)
      else
        match splitAtTag tag cs with
        | none => none
        | some (before, rest) => some (c :: before, rest)

/-- The opening tag of a thinking block, lowercase. -/
def thinkOpen : List Char := "<thinking>".data

/-- The closing tag of a thinking block, lowercase. -/
def thinkClose : List Char := "</thinking>".data

/-- Leading and trailing whitespace removal on a character list,
mirroring the trim calls of the client. -/
def trimChars (s : List Char) : List Char :=
  ((s.dropWhile Char.isWhitespace).reverse.dropWhile Char.isWhitespace).reverse

/-- String-level trim. -/
def trimStr (s : String) : String :=
  ⟨trimChars s.data⟩

/-- Removal of every thinking block, as the global case-insensitive
lazy replace of fetchPlan line 140: repeatedly delete from the first
opening tag through the nearest closing tag after it, scanning on past
the deleted block; text whose opening tag has no closing tag is kept.
The fuel argument bounds the recursion; each round consumes at least
the opening tag, so the length of the text is always enough fuel. -/
def stripThinkingAux : Nat → List Char → List Char
  | 0, s => s
  | fuel + 1, s =>
      match splitAtTag thinkOpen s with
      | none => s
      | some (before, rest) =>
          match splitAtTag thinkClose rest with
          | none => s
          | some (_, tagEnd) => before ++ stripThinkingAux fuel tagEnd

/-- Removal of every thinking block from the text. -/
def removeThinking (s : List Char) : List Char :=
  stripThinkingAux s.length s

/-- The first thinking block's inner text, trimmed — the group match of
fetchPlan line 138 — or none when there is no complete block. -/
def extractThinking (s : List Char) : Option String :=
  match splitAtTag thinkOpen s with
  | none => none
  | some (_, rest) =>
      match splitAtTag thinkClose rest with
      | none => none
      | some (inner, _) => some ⟨trimChars inner⟩

/-- The result fetchPlan returns to the caller. -/
structure PlanResult where
  content : String
  thinking : Option String := none
  reasoning_steps : List ReasoningStep
  follow_up_suggestions : List String
deriving DecidableEq, Repr

/-- The post-processing fetchPlan applies to the plan-endpoint JSON
response (App.tsx lines 136-147): extract the first thinking block
(trimmed) as thinking, delete every thinking block from the response
and trim the remainder as the content, pass reasoning_steps through,
and default follow_up_suggestions to the empty list. -/
def parsePlanResponse (response : String) (reasoning_steps : List ReasoningStep)
    (follow_up_suggestions : Option (List String)) : PlanResult :=
  { content := ⟨trimChars (removeThinking response.data)⟩,
    thinking := extractThinking response.data,
    reasoning_steps := reasoning_steps,
    follow_up_suggestions := follow_up_suggestions.getD [] }

/-! ## Conversation bound (both clients) -/

/-- SESSION_MAX_HISTORY, the conversation bound of both clients. -/
def SESSION_MAX_HISTORY : Nat := 40

/-- The wire text of a message role. -/
def roleText : Role → String
  | .user => "user"
  | .assistant => "assistant"

/-- The context the non-streaming client attaches to a turn (App.tsx,
sendMessage line 162): the last SESSION_MAX_HISTORY messages as
(role, content) pairs, via messages.slice(-SESSION_MAX_HISTORY). -/
def historyForTurn (messages : List Message) : List (String × String) :=
  (messages.drop (messages.length - SESSION_MAX_HISTORY)).map
    (fun m => (roleText m.role, m.content))

/-- Number of completed (non-loading) messages (part_004 line 165). -/
def completedCount (messages : List Message) : Nat :=
  (messages.filter (fun m => !m.loading)).length

/-- The guard of the streaming client's sendMessage (part_004 line
166): the turn is refused when the trimmed text is blank, a turn is in
flight, or the completed-message count has reached the bound. -/
def streamSendBlocked (text : String) (loading : Bool) (messages : List Message) : Bool :=
  (trimStr text == "") || loading ||
    decide (SESSION_MAX_HISTORY ≤ completedCount messages)

/-! ## Stream framing (part_004 lines 191-207) -/

/-- Split of a character list at newlines, one list per line, as
buffer.split of line 199: always at least one piece, the last piece
being the text after the final newline. -/
def splitLines : List Char → List (List Char)
  | [] => [[]]
  | c :: cs =>
      if c = '\n' then [] :: splitLines cs
      else
        match splitLines cs with
        | [] => [[c]]
        | h :: t => (c :: h) :: t

/-- Prepend characters onto the first piece of a piece list. -/
def consHead (x : List Char) : List (List Char) → List (List Char)
  | [] => [x]
  | h :: t => (x ++ h) :: t

/-- One reader iteration (lines 198-200): append the decoded chunk to
the buffer, split on newlines, emit the complete lines, and keep the
trailing incomplete piece as the new buffer. -/
def feedChunk (acc : List (List Char) × List Char) (chunk : List Char) :
    List (List Char) × List Char :=
  let parts := splitLines (acc.2 ++ chunk)
  (acc.1 ++ parts.dropLast, parts.getLastD [])

/-- Feeding a whole sequence of chunks from an empty buffer, collecting
the complete lines in arrival order. -/
def feedChunks (chunks : List (List Char)) : List (List Char) × List Char :=
  chunks.foldl feedChunk ([], [])

/-- The line marker the dispatcher requires, including its trailing
space. -/
def dataMarker : List Char := "data: ".data

/-- Per-line handling (lines 202-207): a line without the data marker
is skipped; the payload after the marker is trimmed and a blank payload
is skipped; a payload the JSON parser rejects (parse returns none) is
skipped; otherwise the parsed event is dispatched. The JSON parser is a
parameter — the framing behaviour does not depend on its internals. -/
def processLine (parse : List Char → Option StreamEvent) (line : List Char)
    (st : List Message) : Except String (List Message) :=
  if dataMarker.isPrefixOf line then
    let raw := trimChars (line.drop 6)
    if raw.isEmpty then .ok st
    else
      match parse raw with
      | none => .ok st
      | some evt => processEvent evt st
  else .ok st

end TripPlanner

namespace TripPlanner

/-! ## Helper lemmas about the stream dispatcher -/

theorem empty_string_append (s : String) : "" ++ s = s := by
  cases s
  rfl

theorem updateLast_concat (f : Message → Message) (ms : List Message) (m : Message) :
    updateLast f (ms ++ [m]) = ms ++ [f m] := by
  simp [updateLast, List.getLast?_concat, List.dropLast_concat]

theorem processEvent_concat (e : StreamEvent) (ms : List Message) (m : Message)
    (he : isErrorEvt e = false) :
    processEvent e (ms ++ [m]) = Except.ok (ms ++ [msgStep e m]) := by
  cases e <;> simp [processEvent, msgStep, updateLast_concat]
  simp [isErrorEvt] at he

theorem processEvents_ok_eq (evs : List StreamEvent) (ms : List Message) (m : Message)
    (st' : List Message)
    (h : processEvents evs (ms ++ [m]) = Except.ok st') :
    st' = ms ++ [applyEvents evs m] := by
  induction evs generalizing m with
  | nil =>
      simp [processEvents] at h
      simp [applyEvents, h.symm]
  | cons e es ih =>
      by_cases he : isErrorEvt e = true
      · cases e <;> simp [isErrorEvt] at he
        simp [processEvents, processEvent] at h
      · rw [Bool.not_eq_true] at he
        rw [processEvents, processEvent_concat e ms m he] at h
        have := ih (msgStep e m) h
        simpa [applyEvents] using this

theorem processEvents_append (a b : List StreamEvent) (st : List Message) :
    processEvents (a ++ b) st =
      match processEvents a st with
      | .ok st1 => processEvents b st1
      | .error x => .error x := by
  induction a generalizing st with
  | nil => simp [processEvents]
  | cons e es ih =>
      simp only [List.cons_append, processEvents]
      cases processEvent e st with
      | ok st1 => exact ih st1
      | error message => rfl

theorem contentOfLast_concat (ms : List Message) (m : Message) :
    contentOfLast (ms ++ [m]) = m.content := by
  simp [contentOfLast, List.getLast?_concat]

theorem followUpsOfLast_concat (ms : List Message) (m : Message) :
    followUpsOfLast (ms ++ [m]) = m.follow_up_suggestions := by
  simp [followUpsOfLast, List.getLast?_concat]

theorem stepsOfLast_concat (ms : List Message) (m : Message) :
    stepsOfLast (ms ++ [m]) = m.reasoning_steps.getD [] := by
  simp [stepsOfLast, List.getLast?_concat]

theorem content_applyEvents (evs : List StreamEvent) (m : Message)
    (hnd : ∀ e ∈ evs, isDoneEvt e = false) :
    (applyEvents evs m).content = m.content ++ concatStrings (tokenTexts evs) := by
  induction evs generalizing m with
  | nil => simp [applyEvents, tokenTexts, concatStrings]
  | cons e es ih =>
      have hd : isDoneEvt e = false := hnd e (by simp)
      have hrest : ∀ e ∈ es, isDoneEvt e = false := fun x hx => hnd x (by simp [hx])
      have step : applyEvents (e :: es) m = applyEvents es (msgStep e m) := by
        simp [applyEvents]
      rw [step, ih (msgStep e m) hrest]
      cases e <;>
        simp [msgStep, tokenTexts, concatStrings, String.append_assoc]
      simp [isDoneEvt] at hd

theorem steps_applyEvents (evs : List StreamEvent) (m : Message) :
    (applyEvents evs m).reasoning_steps.getD [] =
      m.reasoning_steps.getD [] ++ toolEndSteps evs := by
  induction evs generalizing m with
  | nil => simp [applyEvents, toolEndSteps]
  | cons e es ih =>
      have step : applyEvents (e :: es) m = applyEvents es (msgStep e m) := by
        simp [applyEvents]
      rw [step, ih (msgStep e m)]
      cases e <;> simp [msgStep, toolEndSteps]

theorem applyEvents_append (a b : List StreamEvent) (m : Message) :
    applyEvents (a ++ b) m = applyEvents b (applyEvents a m) := by
  simp [applyEvents, List.foldl_append]

/-! ## Claim theorems for the stream dispatcher -/

/-- C2 (amended): every event type the stream dispatcher handles lies in
the six-element set containing token, thinking, tool_start, tool_end,
done and error; an event of any other type is skipped with no effect on
the message list. -/
theorem unhandled_event_skipped (e : StreamEvent) (st : List Message)
    (h : eventType e ∉ handledTypes) : processEvent e st = Except.ok st := by
  cases e with
  | other ty => rfl
  | token t => simp [eventType, handledTypes] at h
  | thinking t => simp [eventType, handledTypes] at h
  | tool_start t => simp [eventType, handledTypes] at h
  | tool_end t i o => simp [eventType, handledTypes] at h
  | done cr fus => simp [eventType, handledTypes] at h
  | error m => simp [eventType, handledTypes] at h

/-- Witness for C2 (amended): an event of the unknown type ping is
skipped without any effect. -/
theorem unhandled_event_skipped_witness :
    processEvent (StreamEvent.other "ping") [initialAssistantMessage] =
      Except.ok [initialAssistantMessage] :=
  unhandled_event_skipped (StreamEvent.other "ping") [initialAssistantMessage] (by decide)

/-- Counterexample for C2 as stated: the dispatcher consumes an event of
type thinking — a type outside the five-element set of the claim — and
it changes the in-progress message, so it is not skipped. -/
theorem thinking_event_consumed :
    eventType (StreamEvent.thinking "hm") ∉
        ["tool_start", "tool_end", "token", "done", "error"] ∧
    processEvent (StreamEvent.thinking "hm") [initialAssistantMessage] ≠
      Except.ok [initialAssistantMessage] := by
  constructor
  · decide
  · intro h
    simp [processEvent, updateLast, initialAssistantMessage] at h

/-- C3: before any done event, the content of the in-progress assistant
message equals the concatenation, in arrival order, of the token texts
processed so far, starting from the empty string of the placeholder
message. -/
theorem token_accumulation (evs : List StreamEvent) (ms st' : List Message)
    (hnd : ∀ e ∈ evs, isDoneEvt e = false)
    (h : processEvents evs (ms ++ [initialAssistantMessage]) = Except.ok st') :
    contentOfLast st' = concatStrings (tokenTexts evs) := by
  rw [processEvents_ok_eq evs ms initialAssistantMessage st' h, contentOfLast_concat,
    content_applyEvents evs initialAssistantMessage hnd]
  exact empty_string_append _

/-- Witness for C3: two token events interleaved with a tool_start
accumulate to the concatenation of the two texts. -/
theorem token_accumulation_witness :
    contentOfLast
        [{ role := Role.assistant, content := "Hello", loading := false,
           reasoning_steps := some [], activeTool := some "t" }] =
      concatStrings (tokenTexts
        [StreamEvent.token "Hel", StreamEvent.tool_start "t", StreamEvent.token "lo"]) :=
  token_accumulation
    [StreamEvent.token "Hel", StreamEvent.tool_start "t", StreamEvent.token "lo"] []
    [{ role := Role.assistant, content := "Hello", loading := false,
       reasoning_steps := some [], activeTool := some "t" }]
    (by decide) (by rfl)

/-- C4: when a turn ends with a done event, the final assistant message
content equals the clean_response of that event (replacing any token
text accumulated before it) and its follow-up suggestions equal the
follow_up_suggestions of the event, defaulting to the empty list when
that field is absent. -/
theorem done_replaces_content (evs : List StreamEvent) (ms : List Message)
    (cr : String) (fus : Option (List String)) (st' : List Message)
    (h : processEvents (evs ++ [StreamEvent.done cr fus])
           (ms ++ [initialAssistantMessage]) = Except.ok st') :
    contentOfLast st' = cr ∧ followUpsOfLast st' = some (fus.getD []) := by
  rw [processEvents_ok_eq _ ms initialAssistantMessage st' h, contentOfLast_concat,
    followUpsOfLast_concat, applyEvents_append]
  constructor <;> rfl

/-- Witness for C4: a done event after a token event overwrites the
accumulated text with the clean response and, with the suggestion field
absent, yields the empty suggestion list. -/
theorem done_replaces_content_witness :
    contentOfLast
        [{ role := Role.assistant, content := "Final answer", loading := false,
           reasoning_steps := some [], follow_up_suggestions := some [] }] = "Final answer" ∧
    followUpsOfLast
        [{ role := Role.assistant, content := "Final answer", loading := false,
           reasoning_steps := some [], follow_up_suggestions := some [] }] =
      some ((none : Option (List String)).getD []) :=
  done_replaces_content [StreamEvent.token "part"] [] "Final answer" none
    [{ role := Role.assistant, content := "Final answer", loading := false,
       reasoning_steps := some [], follow_up_suggestions := some [] }]
    (by rfl)

/-- C5: a tool_end event appends exactly one reasoning step built from
its payload to the in-progress message and clears the active-tool
marker; and after any successfully dispatched stream, the reasoning
steps of the final message are exactly the ordered tool_end payloads. -/
theorem tool_end_collects :
    (∀ (tool input output : String) (ms : List Message) (m : Message),
       processEvent (StreamEvent.tool_end tool input output) (ms ++ [m]) =
         Except.ok (ms ++ [{ m with
           activeTool := none,
           reasoning_steps := some (m.reasoning_steps.getD [] ++ [⟨tool, input, output⟩]) }])) ∧
    (∀ (evs : List StreamEvent) (ms st' : List Message),
       processEvents evs (ms ++ [initialAssistantMessage]) = Except.ok st' →
         stepsOfLast st' = toolEndSteps evs) := by
  constructor
  · intro tool input output ms m
    exact processEvent_concat _ ms m rfl
  · intro evs ms st' h
    rw [processEvents_ok_eq evs ms initialAssistantMessage st' h, stepsOfLast_concat,
      steps_applyEvents]
    simp [initialAssistantMessage]

/-- Witness for C5: a stream with one tool_end event yields exactly the
one corresponding reasoning step. -/
theorem tool_end_collects_witness :
    stepsOfLast
        [{ role := Role.assistant, content := "ok", loading := false,
           reasoning_steps := some [⟨"get_destinations", "q", "r"⟩], activeTool := none }] =
      toolEndSteps
        [StreamEvent.tool_start "get_destinations",
         StreamEvent.tool_end "get_destinations" "q" "r",
         StreamEvent.token "ok"] :=
  tool_end_collects.2
    [StreamEvent.tool_start "get_destinations",
     StreamEvent.tool_end "get_destinations" "q" "r",
     StreamEvent.token "ok"] []
    [{ role := Role.assistant, content := "ok", loading := false,
       reasoning_steps := some [⟨"get_destinations", "q", "r"⟩], activeTool := none }]
    (by rfl)

/-- C7: an error stream event aborts the dispatch loop for the turn —
whatever events follow it are never processed — and the catch handler
replaces the in-progress assistant message with an error-flagged
message whose content is the event's message; the partially streamed
message is dropped rather than shown. -/
theorem error_event_aborts (pre post : List StreamEvent) (message : String)
    (ms st1 : List Message)
    (h : processEvents pre (ms ++ [initialAssistantMessage]) = Except.ok st1) :
    runStreamTurn (pre ++ StreamEvent.error message :: post)
        (ms ++ [initialAssistantMessage]) =
      st1.dropLast ++ [{ role := .assistant, content := message, isError := true }] := by
  rw [runStreamTurn, processEvents_append, h]
  rfl

/-- Witness for C7: after one partial token, an error event with message
boom discards the partial text and leaves a single error-flagged
message; the token event after the error is never applied. -/
theorem error_event_aborts_witness :
    runStreamTurn
        [StreamEvent.token "par", StreamEvent.error "boom", StreamEvent.token "never"]
        [initialAssistantMessage] =
      ([{ role := Role.assistant, content := "par", loading := false,
          reasoning_steps := some [] }] : List Message).dropLast ++
        [{ role := Role.assistant, content := "boom", isError := true }] :=
  error_event_aborts [StreamEvent.token "par"] [StreamEvent.token "never"] "boom" []
    [{ role := Role.assistant, content := "par", loading := false,
       reasoning_steps := some [] }]
    (by rfl)

/-- C6: a 429 response whose body carries an object-valued detail makes
the client raise a rate-limit error, and the catch handler replaces the
in-progress assistant message with an error-flagged message whose text
is the detail message and which carries the detail reset time; a
response of any other status never produces the rate-limit error. -/
theorem rate_limit_handling :
    (∀ (r : HttpResponse) (message resets_at : String),
       r.status = 429 → r.detail = some (DetailVal.obj message resets_at) →
         checkResponse r = some (FetchError.rateLimit message resets_at) ∧
         ∀ prev, handleTurnError (FetchError.rateLimit message resets_at) prev =
           prev.dropLast ++ [{ role := .assistant, content := message, isError := true,
                               rateLimitReset := some resets_at }]) ∧
    (∀ (r : HttpResponse), r.status ≠ 429 →
       ∀ message resets_at,
         checkResponse r ≠ some (FetchError.rateLimit message resets_at)) := by
  constructor
  · intro r message resets_at hstatus hdetail
    refine ⟨?_, fun prev => rfl⟩
    simp [checkResponse, resOk, hstatus, hdetail]
  · intro r hstatus message resets_at hc
    unfold checkResponse at hc
    by_cases hcond : (!resOk r || !r.hasBody) = true
    · rw [if_pos hcond, if_neg hstatus] at hc
      cases hd : r.detail with
      | none =>
          rw [hd] at hc
          exact FetchError.noConfusion (Option.some.inj hc)
      | some d =>
          cases d with
          | obj m2 ra2 =>
              rw [hd] at hc
              exact FetchError.noConfusion (Option.some.inj hc)
          | str s2 =>
              rw [hd] at hc
              exact FetchError.noConfusion (Option.some.inj hc)
    · rw [if_neg hcond] at hc
      exact Option.noConfusion hc

/-- Witness for C6: a concrete 429 response with an object detail yields
the rate-limit error, and the handler rewrites a one-message list into
the error-flagged message carrying the reset time. -/
theorem rate_limit_handling_witness :
    checkResponse ⟨429, false, some (DetailVal.obj "Daily limit reached" "2026-10-12T00:00:00")⟩ =
      some (FetchError.rateLimit "Daily limit reached" "2026-10-12T00:00:00") ∧
    handleTurnError (FetchError.rateLimit "Daily limit reached" "2026-10-12T00:00:00")
        [initialAssistantMessage] =
      ([initialAssistantMessage] : List Message).dropLast ++
        [{ role := .assistant, content := "Daily limit reached", isError := true,
           rateLimitReset := some "2026-10-12T00:00:00" }] :=
  ⟨(rate_limit_handling.1
      ⟨429, false, some (DetailVal.obj "Daily limit reached" "2026-10-12T00:00:00")⟩
      "Daily limit reached" "2026-10-12T00:00:00" rfl rfl).1,
   (rate_limit_handling.1
      ⟨429, false, some (DetailVal.obj "Daily limit reached" "2026-10-12T00:00:00")⟩
      "Daily limit reached" "2026-10-12T00:00:00" rfl rfl).2 [initialAssistantMessage]⟩

end TripPlanner

namespace TripPlanner

/-- C1: For every AgentState with 5 or more tool-result messages, the
Router returns the decision (free, continue false) — even when an earlier
row such as budget-estimate-without-feasibility would select plan with
continue true — and hence the orchestration loop never starts another
tool cycle. -/
theorem router_safety_cap (feas : String → Bool) (st : AgentState)
    (h : 5 ≤ toolResultCount st) :
    routerDecision feas st = ⟨Binding.free, false⟩ ∧
      startsAnotherToolCycle feas st = false := by
  have hdec : routerDecision feas st = ⟨Binding.free, false⟩ := by
    unfold routerDecision
    simp [h]
  exact ⟨hdec, by simp [startsAnotherToolCycle, hdec]⟩

/-- Witness for C1: a concrete AgentState with exactly 5 tool-result
messages, all budget-estimate calls, and a feasibility predicate that
never fires — so the budget-estimate-without-feasibility row would
select plan with continue true, yet the cap forces (free, false). -/
theorem router_safety_cap_witness :
    routerDecision (fun _ => false)
        ⟨List.replicate 5 (AgentMsg.toolResultMsg "get_budget_estimate"), "trip"⟩ =
      ⟨Binding.free, false⟩ ∧
    startsAnotherToolCycle (fun _ => false)
        ⟨List.replicate 5 (AgentMsg.toolResultMsg "get_budget_estimate"), "trip"⟩ = false :=
  router_safety_cap (fun _ => false)
    ⟨List.replicate 5 (AgentMsg.toolResultMsg "get_budget_estimate"), "trip"⟩
    (by decide)

end TripPlanner

namespace TripPlanner

/-! ## Helper lemmas for the plan-endpoint post-processing -/

theorem stripThinkingAux_no_open (fuel : Nat) (s : List Char)
    (h : splitAtTag thinkOpen s = none) : stripThinkingAux fuel s = s := by
  cases fuel with
  | zero => rfl
  | succ n => simp [stripThinkingAux, h]

theorem removeThinking_no_open (s : List Char) (h : splitAtTag thinkOpen s = none) :
    removeThinking s = s :=
  stripThinkingAux_no_open s.length s h

/-- C8 (amended): the non-streaming endpoint is invoked with the
request body consisting of message, session_id and history — the
streaming body extended with the history pairs — and the client
post-processes the response rather than consuming it verbatim: when the
response contains no thinking tag, the displayed content is the
response trimmed, no thinking is extracted, reasoning_steps is consumed
as the ordered step list, and the follow_up_suggestions response field
is also consumed, defaulting to the empty list. -/
theorem plan_endpoint_shape :
    (∀ (message session_id : String) (history : List (String × String)),
       planRequestBody message session_id history =
         { message := message, session_id := session_id, history := history }) ∧
    (∀ (response : String) (rs : List ReasoningStep) (fus : Option (List String)),
       splitAtTag thinkOpen response.data = none →
         parsePlanResponse response rs fus =
           { content := trimStr response, thinking := none,
             reasoning_steps := rs, follow_up_suggestions := fus.getD [] }) := by
  refine ⟨fun _ _ _ => rfl, fun response rs fus h => ?_⟩
  have h1 : removeThinking response.data = response.data :=
    removeThinking_no_open response.data h
  simp [parsePlanResponse, extractThinking, h1, h, trimStr]

/-- Witness for C8 (amended): a response with no thinking tag is passed
through with all fields intact. -/
theorem plan_endpoint_shape_witness :
    parsePlanResponse "Just Bali." [] none =
      { content := trimStr "Just Bali.", thinking := none,
        reasoning_steps := [],
        follow_up_suggestions := (none : Option (List String)).getD [] } :=
  plan_endpoint_shape.2 "Just Bali." [] none (by decide)

/-- Counterexample for C8 as stated: on a response carrying a thinking
block, the client does not consume the response verbatim as the
assistant reply — the displayed content has the block stripped. -/
theorem plan_response_not_verbatim :
    (parsePlanResponse "<thinking>route</thinking>Hi" [] none).content = "Hi" ∧
    "Hi" ≠ "<thinking>route</thinking>Hi" := by
  constructor
  · decide
  · decide

/-- C9: the prior-message context the non-streaming client attaches to
a turn is bounded — at most 40 (role, content) pairs, exactly the most
recent min(40, length) messages of the conversation in their original
order (a suffix of the whole mapped conversation) — and the streaming
client refuses to start a new turn once 40 completed messages have
accumulated. -/
theorem history_bounded :
    (∀ messages : List Message,
       (historyForTurn messages).length ≤ SESSION_MAX_HISTORY ∧
       (historyForTurn messages).length = min SESSION_MAX_HISTORY messages.length ∧
       historyForTurn messages <:+ messages.map (fun m => (roleText m.role, m.content))) ∧
    (∀ (text : String) (loading : Bool) (messages : List Message),
       SESSION_MAX_HISTORY ≤ completedCount messages →
         streamSendBlocked text loading messages = true) := by
  constructor
  · intro messages
    refine ⟨?_, ?_, ?_⟩
    · simp only [historyForTurn, SESSION_MAX_HISTORY, List.length_map, List.length_drop]
      omega
    · simp only [historyForTurn, SESSION_MAX_HISTORY, List.length_map, List.length_drop]
      omega
    · rw [historyForTurn, List.map_drop]
      exact List.drop_suffix _ _
  · intro text loading messages h
    simp [streamSendBlocked, h]

/-- Witness for C9: with 40 completed messages accumulated, the
streaming client's guard blocks a new turn even for nonblank input and
no turn in flight. -/
theorem history_bounded_witness :
    streamSendBlocked "Plan a trip" false
        (List.replicate 40 { role := Role.assistant, content := "done" }) = true :=
  history_bounded.2 "Plan a trip" false
    (List.replicate 40 { role := Role.assistant, content := "done" }) (by decide)

/-! ## Helper lemmas for the stream framing -/

theorem splitLines_ne_nil (s : List Char) : splitLines s ≠ [] := by
  induction s with
  | nil => simp [splitLines]
  | cons c cs ih =>
      by_cases hc : c = '\n'
      · simp [splitLines, hc]
      · simp only [splitLines, if_neg hc]
        cases hsp : splitLines cs <;> simp

theorem splitLines_cons_exists (s : List Char) :
    ∃ h t, splitLines s = h :: t := by
  cases hq : splitLines s with
  | nil => exact absurd hq (splitLines_ne_nil s)
  | cons h t => exact ⟨h, t, rfl⟩

theorem splitLines_no_newline (s : List Char) (h : ∀ c ∈ s, c ≠ '\n') :
    splitLines s = [s] := by
  induction s with
  | nil => rfl
  | cons c cs ih =>
      have hc : c ≠ '\n' := h c (by simp)
      have hcs : ∀ x ∈ cs, x ≠ '\n' := fun x hx => h x (by simp [hx])
      simp only [splitLines, if_neg hc, ih hcs]

theorem getLastD_nil_eq {α : Type} (d : α) : ([] : List α).getLastD d = d := rfl

theorem splitLines_getLastD_no_newline (s : List Char) :
    ∀ c ∈ (splitLines s).getLastD [], c ≠ '\n' := by
  induction s with
  | nil => intro c hc; simp [splitLines, getLastD_nil_eq] at hc
  | cons a as ih =>
      by_cases ha : a = '\n'
      · simp only [splitLines, if_pos ha, List.getLastD_cons]
        obtain ⟨h1, t1, hsp⟩ := splitLines_cons_exists as
        rw [hsp] at ih ⊢
        rw [List.getLastD_cons] at ih ⊢
        exact ih
      · obtain ⟨h1, t1, hsp⟩ := splitLines_cons_exists as
        rw [hsp] at ih
        simp only [splitLines, if_neg ha, hsp, List.getLastD_cons]
        rw [List.getLastD_cons] at ih
        cases t1 with
        | nil =>
            simp only [getLastD_nil_eq] at ih ⊢
            intro c hc
            rcases List.mem_cons.mp hc with rfl | hc2
            · exact ha
            · exact ih c hc2
        | cons u us =>
            rw [List.getLastD_cons] at ih ⊢
            exact ih

theorem consHead_ne_nil (x : List Char) (l : List (List Char)) : consHead x l ≠ [] := by
  cases l <;> simp [consHead]

theorem consHead_consHead (x y : List Char) (l : List (List Char)) :
    consHead x (consHead y l) = consHead (x ++ y) l := by
  cases l <;> simp [consHead, List.append_assoc]

theorem getLastD_append_ne {α : Type} (l1 l2 : List α) (d : α) (h : l2 ≠ []) :
    (l1 ++ l2).getLastD d = l2.getLastD d := by
  rw [List.getLastD_eq_getLast?, List.getLastD_eq_getLast?,
    List.getLast?_append_of_ne_nil l1 h]

theorem splitLines_cons_ne (c : Char) (cs : List Char) (hc : c ≠ '\n') :
    splitLines (c :: cs) = consHead [c] (splitLines cs) := by
  obtain ⟨h1, t1, hsp⟩ := splitLines_cons_exists cs
  simp [splitLines, if_neg hc, hsp, consHead]

theorem splitLines_newline_cons (cs : List Char) :
    splitLines ('\n' :: cs) = [] :: splitLines cs := by
  simp [splitLines]

theorem splitLines_append (a b : List Char) :
    splitLines (a ++ b) =
      (splitLines a).dropLast ++
        consHead ((splitLines a).getLastD []) (splitLines b) := by
  induction a with
  | nil =>
      obtain ⟨hb, tb, hspb⟩ := splitLines_cons_exists b
      simp [splitLines, hspb, consHead, getLastD_nil_eq]
  | cons c cs ih =>
      obtain ⟨h1, t1, hsp⟩ := splitLines_cons_exists cs
      by_cases hc : c = '\n'
      · subst hc
        rw [List.cons_append, splitLines_newline_cons, splitLines_newline_cons, ih, hsp]
        rw [List.dropLast_cons_of_ne_nil (List.cons_ne_nil h1 t1)]
        rw [show (([] : List Char) :: h1 :: t1).getLastD [] = (h1 :: t1).getLastD [] from
          List.getLastD_cons _ _ _]
        simp
      · rw [List.cons_append, splitLines_cons_ne c (cs ++ b) hc,
          splitLines_cons_ne c cs hc, ih, hsp]
        cases t1 with
        | nil =>
            obtain ⟨hb, tb, hspb⟩ := splitLines_cons_exists b
            simp [hspb, consHead, consHead_consHead, List.getLastD_cons, getLastD_nil_eq]
        | cons u us =>
            simp [consHead, List.getLastD_cons, List.cons_append,
              List.dropLast_cons_of_ne_nil]

theorem foldl_feedChunk (chunks : List (List Char)) :
    ∀ (E : List (List Char)) (B : List Char), (∀ c ∈ B, c ≠ '\n') →
      chunks.foldl feedChunk (E, B) =
        (E ++ (splitLines (B ++ chunks.flatten)).dropLast,
         (splitLines (B ++ chunks.flatten)).getLastD []) := by
  induction chunks with
  | nil =>
      intro E B hB
      simp [splitLines_no_newline B hB, getLastD_nil_eq, List.getLastD_cons]
  | cons c cs ih =>
      intro E B hB
      rw [List.foldl_cons]
      have hstep : feedChunk (E, B) c =
          (E ++ (splitLines (B ++ c)).dropLast, (splitLines (B ++ c)).getLastD []) := rfl
      rw [hstep, ih _ _ (splitLines_getLastD_no_newline (B ++ c))]
      have hsingle : splitLines ((splitLines (B ++ c)).getLastD []) =
          [(splitLines (B ++ c)).getLastD []] :=
        splitLines_no_newline _ (splitLines_getLastD_no_newline (B ++ c))
      have hBjoin : splitLines ((splitLines (B ++ c)).getLastD [] ++ cs.flatten) =
          consHead ((splitLines (B ++ c)).getLastD []) (splitLines cs.flatten) := by
        rw [splitLines_append, hsingle]
        simp [getLastD_nil_eq, List.getLastD_cons]
      rw [List.flatten_cons, ← List.append_assoc B c cs.flatten, splitLines_append (B ++ c) cs.flatten,
        hBjoin]
      rw [List.dropLast_append_of_ne_nil _ (consHead_ne_nil _ _),
        getLastD_append_ne _ _ _ (consHead_ne_nil _ _)]
      simp [List.append_assoc]

theorem feedChunks_eq (chunks : List (List Char)) :
    feedChunks chunks =
      ((splitLines chunks.flatten).dropLast, (splitLines chunks.flatten).getLastD []) := by
  have h := foldl_feedChunk chunks [] [] (by intro c hc; cases hc)
  simpa [feedChunks] using h

/-- C10: stream parsing is total and chunk-boundary safe: a line
without the data marker, a line whose trimmed payload is blank, and a
payload the JSON parser rejects are each skipped without aborting the
turn; and feeding the transport text in chunks, in any split whatever,
emits exactly the complete lines of the concatenated text in order,
keeping the trailing text after the last newline buffered. -/
theorem stream_parsing_total :
    (∀ (parse : List Char → Option StreamEvent) (line : List Char) (st : List Message),
       dataMarker.isPrefixOf line = false ∨ trimChars (line.drop 6) = [] ∨
         parse (trimChars (line.drop 6)) = none →
       processLine parse line st = Except.ok st) ∧
    (∀ chunks : List (List Char),
       feedChunks chunks =
         ((splitLines chunks.flatten).dropLast, (splitLines chunks.flatten).getLastD [])) := by
  constructor
  · intro parse line st h
    unfold processLine
    rcases h with h | h | h
    · simp [h]
    · by_cases hp : dataMarker.isPrefixOf line
      · simp [hp, h]
      · simp [hp]
    · by_cases hp : dataMarker.isPrefixOf line
      · by_cases he : (trimChars (line.drop 6)).isEmpty
        · simp [hp, he]
        · simp [hp, he, h]
      · simp [hp]
  · exact feedChunks_eq

/-- Witness for C10: a line that does not carry the data marker is
skipped with no effect. -/
theorem stream_parsing_total_witness :
    processLine (fun _ => none) "ping".data [] = Except.ok [] :=
  stream_parsing_total.1 (fun _ => none) "ping".data [] (Or.inl (by decide))

end TripPlanner
